import Mathlib

/-!
Shallow embedding of `KokkosFFT::Impl::get_extents`
(src/common/src/KokkosFFT_layouts.hpp) and proofs about it.

The C++ function is a template over an input view type, an output view
type and a compile-time transform dimension `DIM`.  A Kokkos view carries
a compile-time rank, per-axis extents (`size_t`, non-negative), a storage
layout (`Kokkos::LayoutRight` = row-major or `Kokkos::LayoutLeft` =
column-major) and an element type.  The element type is classified by the
traits `std::is_floating_point` (real scalar) and `KokkosFFT::Impl::is_complex`
(complex scalar); a type can satisfy neither.  We model these three
classes by `ScalarKind`.

Failure modes of the C++ code are `throw std::runtime_error{...}` for the
two type mismatches and a failed `assert` for the halved-spectrum extent
checks; both abort the call before any tuple is returned, so the embedding
returns `Except String (...)` with a distinct message per failure site.
-/

namespace KokkosFFT
namespace Impl

/-- Storage layout of a Kokkos view: `Right` is row-major
(`Kokkos::LayoutRight`), `Left` is column-major (`Kokkos::LayoutLeft`). -/
inductive Layout where
  | Right : Layout
  | Left : Layout
deriving DecidableEq, Repr

/-- Classification of a view's element type: a real floating-point scalar,
a complex scalar, or any other type (neither trait holds). -/
inductive ScalarKind where
  | real : ScalarKind
  | complex : ScalarKind
  | other : ScalarKind
deriving DecidableEq, Repr

/-- The trait `KokkosFFT::Impl::is_complex<T>::value`. -/
def is_complex : ScalarKind → Bool
  | ScalarKind.complex => true
  | _ => false

/-- The trait `std::is_floating_point<T>::value`. -/
def is_floating_point : ScalarKind → Bool
  | ScalarKind.real => true
  | _ => false

/-- A Kokkos view as `get_extents` observes it: element type, storage
layout and the list of per-axis extents (axis `i` has extent
`extents[i]`, a `size_t`). -/
structure View where
  value_type : ScalarKind
  layout : Layout
  extents : List Nat
deriving DecidableEq, Repr

/-- `View::rank()`. -/
def View.rank (v : View) : Nat := v.extents.length

/-- `view.extent(i)`: the extent of axis `i`; Kokkos returns 1 for an
index at or beyond the rank. -/
def View.extent (v : View) (i : Nat) : Nat := v.extents.getD i 1

/-- Lines 39-42: `inner_most_axis` is 0 for `LayoutLeft` and `rank - 1`
for any other layout. -/
def inner_most_axis (inv : View) : Nat :=
  if inv.layout = Layout.Left then 0 else inv.rank - 1

/-- Lines 48-51: the full-length (rank-sized) sequence `_in_extents`,
entry `i` being `in.extent(map.at(i))`. -/
def in_extents_full (inv : View) (map : List Nat) : List Nat :=
  (List.range inv.rank).map fun i => inv.extent (map.getD i 0)

/-- Lines 48-52: the full-length sequence `_out_extents`, entry `i` being
`out.extent(map.at(i))` (the loop bound is the input view's rank). -/
def out_extents_full (inv outv : View) (map : List Nat) : List Nat :=
  (List.range inv.rank).map fun i => outv.extent (map.getD i 0)

/-- Lines 53-58: the full-length sequence `_fft_extents`, entry `i` being
`max(in.extent(map.at(i)), out.extent(map.at(i)))`. -/
def fft_extents_full (inv outv : View) (map : List Nat) : List Nat :=
  (List.range inv.rank).map fun i =>
    max (inv.extent (map.getD i 0)) (outv.extent (map.getD i 0))

/-- Message of the `throw` at lines 67-68. -/
def r2c_type_error : String :=
  "If the input type is real, the output type should be complex"

/-- Message of the `throw` at lines 78-79. -/
def c2r_type_error : String :=
  "If the output type is real, the input type should be complex"

/-- The failed `assert` at lines 64-65 (R2C halved-spectrum check). -/
def r2c_assert_error : String :=
  "assert failed: out_extents innermost == in_extents innermost / 2 + 1"

/-- The failed `assert` at lines 75-76 (C2R halved-spectrum check). -/
def c2r_assert_error : String :=
  "assert failed: in_extents innermost == out_extents innermost / 2 + 1"

/-- Lines 83-87: `std::reverse` is applied to each full-length sequence
exactly when the layout is `LayoutLeft`; otherwise the sequence is kept. -/
def layout_reversed (lay : Layout) (l : List Nat) : List Nat :=
  if lay = Layout.Left then l.reverse else l

/-- Lines 83-102: the part of `get_extents` after the real/complex
validation: reverse the three full-length sequences when the layout is
`LayoutLeft`, slice their last `DIM` entries, and compute
`howmany = total_fft_size / fft_size` with `std::accumulate`
(`foldl` with initial value 1). -/
def get_extents_sliced (inv outv : View) (dim : Nat) (map : List Nat) :
    List Nat × List Nat × List Nat × Nat :=
  let inRev := layout_reversed inv.layout (in_extents_full inv map)
  let outRev := layout_reversed inv.layout (out_extents_full inv outv map)
  let fftRev := layout_reversed inv.layout (fft_extents_full inv outv map)
  let in_extents := inRev.drop (inRev.length - dim)
  let out_extents := outRev.drop (outRev.length - dim)
  let fft_extents := fftRev.drop (fftRev.length - dim)
  let total_fft_size := fftRev.foldl (· * ·) 1
  let fft_size := fft_extents.foldl (· * ·) 1
  let howmany := total_fft_size / fft_size
  (in_extents, out_extents, fft_extents, howmany)

/-- Lines 72-81 (the C2R validation block) followed by the fall-through
to lines 83-102: if the output element type is floating point, the input
must be complex (else `throw`) and the C2R halved-spectrum `assert` must
hold; otherwise control reaches the slicing computation. -/
def get_extents_c2r_block (inv outv : View) (dim : Nat) (map : List Nat) :
    Except String (List Nat × List Nat × List Nat × Nat) :=
  if is_floating_point outv.value_type then
    if is_complex inv.value_type then
      if (in_extents_full inv map).getD (inner_most_axis inv) 0
          = (out_extents_full inv outv map).getD (inner_most_axis inv) 0 / 2 + 1
      then Except.ok (get_extents_sliced inv outv dim map)
      else Except.error c2r_assert_error
    else Except.error c2r_type_error
  else Except.ok (get_extents_sliced inv outv dim map)

/-- `KokkosFFT::Impl::get_extents` (lines 21-103).  The axis map `map` is
the forward permutation produced by the collaborator
`KokkosFFT::Impl::get_map_axes` (line 29); it is taken as an argument
here.  The control flow mirrors the source: the R2C block (lines 61-70)
runs first, then the C2R block (lines 72-81), then layout reversal,
slicing and the batch count (lines 83-102). -/
def get_extents (inv outv : View) (dim : Nat) (map : List Nat) :
    Except String (List Nat × List Nat × List Nat × Nat) :=
  if is_floating_point inv.value_type then
    if is_complex outv.value_type then
      if (out_extents_full inv outv map).getD (inner_most_axis inv) 0
          = (in_extents_full inv map).getD (inner_most_axis inv) 0 / 2 + 1
      then get_extents_c2r_block inv outv dim map
      else Except.error r2c_assert_error
    else Except.error r2c_type_error
  else get_extents_c2r_block inv outv dim map

/-- Modelled from the spec: the axis-mapping collaborator
`KokkosFFT::Impl::get_map_axes`, declared in KokkosFFT_transpose.hpp,
which is not among the sources here.  Per the spec, for a row-major view
it returns a forward permutation of `[0, rank)` that keeps the
non-transform axes first, in their original order, and moves the chosen
transform axes to the trailing `D` positions, in axis-list order. -/
def get_map_axes (rank : Nat) (axes : List Nat) : List Nat :=
  (List.range rank).filter (fun i => decide (i ∉ axes)) ++ axes

/-- Example view: real, row-major, shape (4, 5). -/
def rview45 : View := ⟨ScalarKind.real, Layout.Right, [4, 5]⟩

/-- Example view: complex, row-major, shape (4, 3). -/
def cview43 : View := ⟨ScalarKind.complex, Layout.Right, [4, 3]⟩

/-- Example view: real, row-major, shape (6). -/
def rview6 : View := ⟨ScalarKind.real, Layout.Right, [6]⟩

/-- Example view: element type neither real nor complex, shape (6). -/
def oview6 : View := ⟨ScalarKind.other, Layout.Right, [6]⟩

/-- Example view: real, row-major, shape (4). -/
def rview4 : View := ⟨ScalarKind.real, Layout.Right, [4]⟩

/-- Example view: real, row-major, shape (2, 8). -/
def rview28 : View := ⟨ScalarKind.real, Layout.Right, [2, 8]⟩

/-- Example view: complex, column-major, shape (4, 6). -/
def lview46 : View := ⟨ScalarKind.complex, Layout.Left, [4, 6]⟩

/-- Example view: complex, column-major, shape (7, 6). -/
def lview76 : View := ⟨ScalarKind.complex, Layout.Left, [7, 6]⟩

/-- Example view: complex, row-major, shape (2, 3, 4). -/
def cview234 : View := ⟨ScalarKind.complex, Layout.Right, [2, 3, 4]⟩

/-! ## Helper lemmas -/

theorem in_extents_full_length (inv : View) (map : List Nat) :
    (in_extents_full inv map).length = inv.rank := by
  simp [in_extents_full]

theorem out_extents_full_length (inv outv : View) (map : List Nat) :
    (out_extents_full inv outv map).length = inv.rank := by
  simp [out_extents_full]

theorem fft_extents_full_length (inv outv : View) (map : List Nat) :
    (fft_extents_full inv outv map).length = inv.rank := by
  simp [fft_extents_full]

theorem layout_reversed_length (lay : Layout) (l : List Nat) :
    (layout_reversed lay l).length = l.length := by
  unfold layout_reversed
  split <;> simp

theorem layout_reversed_prod (lay : Layout) (l : List Nat) :
    (layout_reversed lay l).prod = l.prod := by
  unfold layout_reversed
  split <;> simp [List.prod_reverse]

theorem mem_layout_reversed (lay : Layout) (l : List Nat) (a : Nat) :
    a ∈ layout_reversed lay l ↔ a ∈ l := by
  unfold layout_reversed
  split <;> simp

/-- `getD` on a dropped list, re-indexed into the original list. -/
theorem getD_drop (l : List Nat) (m k : Nat) (h : k < (l.drop m).length) :
    (l.drop m).getD k 0 = l.getD (m + k) 0 := by
  have h2 : m + k < l.length := by
    simp only [List.length_drop] at h
    omega
  rw [List.getD_eq_getElem _ _ h, List.getD_eq_getElem _ _ h2]
  exact List.getElem_drop ..

/-- `getD` on a reversed list, re-indexed into the original list. -/
theorem getD_reverse (l : List Nat) (i : Nat) (h : i < l.length) :
    l.reverse.getD i 0 = l.getD (l.length - 1 - i) 0 := by
  rw [List.getD_eq_getElem _ _ (by simpa using h),
      List.getD_eq_getElem _ _ (by omega), List.getElem_reverse]

/-- Entry `i` of `_fft_extents` is the max of the matching entries of
`_in_extents` and `_out_extents` (lines 53-58 of the loop). -/
theorem fft_extents_full_getD (inv outv : View) (map : List Nat) (i : Nat)
    (h : i < inv.rank) :
    (fft_extents_full inv outv map).getD i 0
      = max ((in_extents_full inv map).getD i 0)
          ((out_extents_full inv outv map).getD i 0) := by
  rw [List.getD_eq_getElem _ _ (by simpa [fft_extents_full] using h),
      List.getD_eq_getElem _ _ (by simpa [in_extents_full] using h),
      List.getD_eq_getElem _ _ (by simpa [out_extents_full] using h)]
  simp [fft_extents_full, in_extents_full, out_extents_full]

/-- The max relationship survives the layout-dependent reversal. -/
theorem fft_rev_getD (inv outv : View) (map : List Nat) (i : Nat)
    (h : i < inv.rank) :
    (layout_reversed inv.layout (fft_extents_full inv outv map)).getD i 0
      = max ((layout_reversed inv.layout (in_extents_full inv map)).getD i 0)
          ((layout_reversed inv.layout (out_extents_full inv outv map)).getD i 0) := by
  unfold layout_reversed
  split
  · rw [getD_reverse _ _ (by simpa [fft_extents_full] using h),
        getD_reverse _ _ (by simpa [in_extents_full] using h),
        getD_reverse _ _ (by simpa [out_extents_full] using h),
        fft_extents_full_length, in_extents_full_length, out_extents_full_length]
    exact fft_extents_full_getD inv outv map _ (by omega)
  · exact fft_extents_full_getD inv outv map i h

/-- If `get_extents` returns, its value is exactly the post-validation
slicing computation of lines 83-102. -/
theorem get_extents_ok_eq (inv outv : View) (dim : Nat) (map : List Nat)
    (r : List Nat × List Nat × List Nat × Nat)
    (h : get_extents inv outv dim map = Except.ok r) :
    r = get_extents_sliced inv outv dim map := by
  unfold get_extents get_extents_c2r_block at h
  split_ifs at h <;> exact (Except.ok.inj h).symm

/-- A guarded `Except.ok` returns a value exactly when the guard holds. -/
theorem exists_ok_ite {α : Type} (c : Prop) [Decidable c] (x : α) (e : String) :
    (∃ r, (if c then (Except.ok x : Except String α) else Except.error e)
      = Except.ok r) ↔ c := by
  split <;> simp_all


/-! ## Claims -/

/-- C1: for a real-to-complex call (input element type real, output
element type complex) the resolver returns exactly when the output extent
at the innermost transform position equals the input extent there divided
by 2 (integer division) plus 1, and symmetrically for complex-to-real;
any other value aborts before returning. -/
theorem c1_halved_spectrum_required (inv outv : View) (dim : Nat) (map : List Nat) :
    (inv.value_type = ScalarKind.real → outv.value_type = ScalarKind.complex →
      ((∃ r, get_extents inv outv dim map = Except.ok r) ↔
        (out_extents_full inv outv map).getD (inner_most_axis inv) 0
          = (in_extents_full inv map).getD (inner_most_axis inv) 0 / 2 + 1))
    ∧
    (outv.value_type = ScalarKind.real → inv.value_type = ScalarKind.complex →
      ((∃ r, get_extents inv outv dim map = Except.ok r) ↔
        (in_extents_full inv map).getD (inner_most_axis inv) 0
          = (out_extents_full inv outv map).getD (inner_most_axis inv) 0 / 2 + 1)) := by
  constructor
  · intro h1 h2
    have hred : get_extents inv outv dim map
        = (if (out_extents_full inv outv map).getD (inner_most_axis inv) 0
              = (in_extents_full inv map).getD (inner_most_axis inv) 0 / 2 + 1
           then Except.ok (get_extents_sliced inv outv dim map)
           else Except.error r2c_assert_error) := by
      unfold get_extents get_extents_c2r_block
      rw [h1, h2]
      rfl
    rw [hred]
    exact exists_ok_ite _ _ _
  · intro h1 h2
    have hred : get_extents inv outv dim map
        = (if (in_extents_full inv map).getD (inner_most_axis inv) 0
              = (out_extents_full inv outv map).getD (inner_most_axis inv) 0 / 2 + 1
           then Except.ok (get_extents_sliced inv outv dim map)
           else Except.error c2r_assert_error) := by
      unfold get_extents get_extents_c2r_block
      rw [h1, h2]
      rfl
    rw [hred]
    exact exists_ok_ite _ _ _

/-- C1 witness: the concrete real-to-complex call (4,5) → (4,3). -/
theorem c1_halved_spectrum_required_witness :
    (∃ r, get_extents rview45 cview43 1 [0, 1] = Except.ok r) ↔
      (out_extents_full rview45 cview43 [0, 1]).getD (inner_most_axis rview45) 0
        = (in_extents_full rview45 [0, 1]).getD (inner_most_axis rview45) 0 / 2 + 1 :=
  (c1_halved_spectrum_required rview45 cview43 1 [0, 1]).1 rfl rfl

/-- C2 counterexample: with a real input AND a real output, the claim
says the failure message must say the input should be complex, but the
code raises the R2C message (saying the output should be complex): the
R2C branch runs first and wins. -/
theorem c2_counterexample :
    rview6.value_type = ScalarKind.real
    ∧ is_complex rview6.value_type = false
    ∧ get_extents rview6 rview6 1 [0] = Except.error r2c_type_error
    ∧ r2c_type_error ≠ c2r_type_error := by
  refine ⟨rfl, rfl, rfl, ?_⟩
  decide

/-- C2 (amended): a real input with a non-complex output always fails
with the message that the output should be complex; a real output with a
non-complex and non-real input fails with the message that the input
should be complex; when both sides are real, the input-side message is
the one raised.  In every such case no extent triple is returned. -/
theorem c2_type_mismatch (inv outv : View) (dim : Nat) (map : List Nat) :
    (is_floating_point inv.value_type = true → is_complex outv.value_type = false →
      get_extents inv outv dim map = Except.error r2c_type_error)
    ∧
    (is_floating_point outv.value_type = true → is_complex inv.value_type = false →
      is_floating_point inv.value_type = false →
      get_extents inv outv dim map = Except.error c2r_type_error) := by
  constructor
  · intro h1 h2
    unfold get_extents
    simp [h1, h2]
  · intro h1 h2 h3
    unfold get_extents get_extents_c2r_block
    simp [h1, h2, h3]

/-- C2 witness: both mismatch messages observed on concrete calls. -/
theorem c2_type_mismatch_witness :
    get_extents rview6 oview6 1 [0] = Except.error r2c_type_error
    ∧ get_extents oview6 rview6 1 [0] = Except.error c2r_type_error :=
  ⟨(c2_type_mismatch rview6 oview6 1 [0]).1 rfl rfl,
   (c2_type_mismatch oview6 rview6 1 [0]).2 rfl rfl rfl⟩

/-- C8 counterexample: with both element types real the resolver is not
silent: the concrete call aborts with the R2C type-mismatch error instead
of returning a tuple. -/
theorem c8_counterexample :
    get_extents rview4 rview4 1 [0] = Except.error r2c_type_error := rfl

/-- C8 (amended): when both the input and the output element types are
real, the resolver does not fall through: the R2C branch (lines 61-70)
fires, sees a non-complex output, and throws the type-mismatch error
saying the output should be complex. -/
theorem c8_both_real_rejected (inv outv : View) (dim : Nat) (map : List Nat)
    (h1 : inv.value_type = ScalarKind.real) (h2 : outv.value_type = ScalarKind.real) :
    get_extents inv outv dim map = Except.error r2c_type_error := by
  unfold get_extents
  simp [h1, h2, is_floating_point, is_complex]

/-- C8 witness: a concrete both-real call raising the error. -/
theorem c8_both_real_rejected_witness :
    get_extents rview28 rview28 2 [0, 1] = Except.error r2c_type_error :=
  c8_both_real_rejected rview28 rview28 2 [0, 1] rfl rfl

/-- C9: a rank-2 row-major real input of shape (4, 5) transformed along
axis 1 (D = 1) into a complex output of shape (4, 3) resolves to
in_extents = [5], out_extents = [3], fft_extents = [5] and batch count 4
(the axis map for axes = [1] is produced by the modelled `get_map_axes`). -/
theorem c9_end_to_end_example :
    get_extents rview45 cview43 1 (get_map_axes 2 [1])
      = Except.ok ([5], [3], [5], 4) := rfl

/-- C10: for a real/complex pair whose extents satisfy the halved-spectrum
relation with real-side innermost extent `n ≥ 1`, the canonical extent at
the innermost position equals `n`, because `max n (n / 2 + 1) = n`. -/
theorem c10_canonical_is_real_extent (inv outv : View) (map : List Nat)
    (h1 : inv.value_type = ScalarKind.real)
    (h2 : outv.value_type = ScalarKind.complex)
    (hrank : 1 ≤ inv.rank)
    (hpos : 1 ≤ inv.extent (map.getD (inner_most_axis inv) 0))
    (hhalf : outv.extent (map.getD (inner_most_axis inv) 0)
        = inv.extent (map.getD (inner_most_axis inv) 0) / 2 + 1) :
    (fft_extents_full inv outv map).getD (inner_most_axis inv) 0
      = inv.extent (map.getD (inner_most_axis inv) 0) := by
  have hlt : inner_most_axis inv < inv.rank := by
    unfold inner_most_axis
    split <;> omega
  rw [List.getD_eq_getElem _ _ (by simpa [fft_extents_full] using hlt)]
  simp only [fft_extents_full, List.getElem_map, List.getElem_range]
  rw [hhalf]
  exact max_eq_left (by omega)

/-- C10 witness: shapes (4,5) and (4,3), innermost real extent 5. -/
theorem c10_canonical_is_real_extent_witness :
    (fft_extents_full rview45 cview43 [0, 1]).getD (inner_most_axis rview45) 0
      = rview45.extent (([0, 1] : List Nat).getD (inner_most_axis rview45) 0) :=
  c10_canonical_is_real_extent rview45 cview43 [0, 1] rfl rfl
    (by decide) (by decide) (by decide)

/-- The components of a successful `get_extents` call, written out. -/
theorem get_extents_ok_parts (inv outv : View) (dim : Nat) (map : List Nat)
    (ins outs ffts : List Nat) (hm : Nat)
    (h : get_extents inv outv dim map = Except.ok (ins, outs, ffts, hm)) :
    ins = (layout_reversed inv.layout (in_extents_full inv map)).drop
        ((layout_reversed inv.layout (in_extents_full inv map)).length - dim)
    ∧ outs = (layout_reversed inv.layout (out_extents_full inv outv map)).drop
        ((layout_reversed inv.layout (out_extents_full inv outv map)).length - dim)
    ∧ ffts = (layout_reversed inv.layout (fft_extents_full inv outv map)).drop
        ((layout_reversed inv.layout (fft_extents_full inv outv map)).length - dim)
    ∧ hm = (layout_reversed inv.layout (fft_extents_full inv outv map)).foldl (· * ·) 1
        / ((layout_reversed inv.layout (fft_extents_full inv outv map)).drop
            ((layout_reversed inv.layout (fft_extents_full inv outv map)).length - dim)).foldl
            (· * ·) 1 := by
  have he := get_extents_ok_eq inv outv dim map _ h
  simp only [get_extents_sliced] at he
  rw [Prod.mk.injEq, Prod.mk.injEq, Prod.mk.injEq] at he
  exact he

/-- C3: for every returned triple and every transform-axis position
`k < D`, the returned `fft_extents[k]` is the max of the returned
`in_extents[k]` and `out_extents[k]`. -/
theorem c3_fft_is_max (inv outv : View) (dim : Nat) (map : List Nat)
    (hdim : dim ≤ inv.rank)
    (ins outs ffts : List Nat) (hm : Nat)
    (h : get_extents inv outv dim map = Except.ok (ins, outs, ffts, hm)) :
    ∀ k, k < dim → ffts.getD k 0 = max (ins.getD k 0) (outs.getD k 0) := by
  obtain ⟨hins, houts, hffts, -⟩ :=
    get_extents_ok_parts inv outv dim map ins outs ffts hm h
  intro k hk
  have hA : (layout_reversed inv.layout (in_extents_full inv map)).length
      = inv.rank := by
    rw [layout_reversed_length, in_extents_full_length]
  have hB : (layout_reversed inv.layout (out_extents_full inv outv map)).length
      = inv.rank := by
    rw [layout_reversed_length, out_extents_full_length]
  have hC : (layout_reversed inv.layout (fft_extents_full inv outv map)).length
      = inv.rank := by
    rw [layout_reversed_length, fft_extents_full_length]
  subst hins houts hffts
  rw [getD_drop _ _ _ (by rw [List.length_drop, hC]; omega),
      getD_drop _ _ _ (by rw [List.length_drop, hA]; omega),
      getD_drop _ _ _ (by rw [List.length_drop, hB]; omega),
      hA, hB, hC]
  exact fft_rev_getD inv outv map _ (by omega)

/-- C3 witness: on the concrete call (4,5) → (4,3), position 0. -/
theorem c3_fft_is_max_witness :
    ([5] : List Nat).getD 0 0
      = max (([5] : List Nat).getD 0 0) (([3] : List Nat).getD 0 0) :=
  c3_fft_is_max rview45 cview43 1 [0, 1] (by decide) [5] [3] [5] 4 rfl 0 (by decide)

/-- C4: the returned batch count times the product of the returned
`fft_extents` recovers the product of the full-length canonical-extent
sequence, and that product is always an exact multiple of the
`fft_extents` product. -/
theorem c4_batch_count_exact (inv outv : View) (dim : Nat) (map : List Nat)
    (ins outs ffts : List Nat) (hm : Nat)
    (h : get_extents inv outv dim map = Except.ok (ins, outs, ffts, hm)) :
    hm * ffts.prod = (fft_extents_full inv outv map).prod
    ∧ ffts.prod ∣ (fft_extents_full inv outv map).prod := by
  obtain ⟨-, -, hffts, hhm⟩ :=
    get_extents_ok_parts inv outv dim map ins outs ffts hm h
  set C := layout_reversed inv.layout (fft_extents_full inv outv map) with hCdef
  have hCp : C.prod = (fft_extents_full inv outv map).prod :=
    layout_reversed_prod _ _
  have hsplit : (C.take (C.length - dim)).prod * (C.drop (C.length - dim)).prod
      = C.prod := List.prod_take_mul_prod_drop _ _
  rw [← List.prod_eq_foldl, ← List.prod_eq_foldl] at hhm
  subst hffts
  rw [hhm, ← hCp, ← hsplit]
  constructor
  · by_cases hf : (C.drop (C.length - dim)).prod = 0
    · rw [hf]
      simp
    · rw [Nat.mul_div_cancel _ (Nat.pos_of_ne_zero hf)]
  · exact dvd_mul_left _ _

/-- C4 witness: on the concrete call (4,5) → (4,3), 4 * 5 = 4 * 5. -/
theorem c4_batch_count_exact_witness :
    4 * ([5] : List Nat).prod = (fft_extents_full rview45 cview43 [0, 1]).prod
    ∧ ([5] : List Nat).prod ∣ (fft_extents_full rview45 cview43 [0, 1]).prod :=
  c4_batch_count_exact rview45 cview43 1 [0, 1] [5] [3] [5] 4 rfl

/-- C6: every returned extent sequence has length exactly D and is the
trailing-D slice (after any layout-dependent reversal) of the matching
full-length sequence. -/
theorem c6_trailing_slice (inv outv : View) (dim : Nat) (map : List Nat)
    (hdim : dim ≤ inv.rank)
    (ins outs ffts : List Nat) (hm : Nat)
    (h : get_extents inv outv dim map = Except.ok (ins, outs, ffts, hm)) :
    ins.length = dim ∧ outs.length = dim ∧ ffts.length = dim
    ∧ ins = (layout_reversed inv.layout (in_extents_full inv map)).drop
        (inv.rank - dim)
    ∧ outs = (layout_reversed inv.layout (out_extents_full inv outv map)).drop
        (inv.rank - dim)
    ∧ ffts = (layout_reversed inv.layout (fft_extents_full inv outv map)).drop
        (inv.rank - dim) := by
  obtain ⟨hins, houts, hffts, -⟩ :=
    get_extents_ok_parts inv outv dim map ins outs ffts hm h
  have hA : (layout_reversed inv.layout (in_extents_full inv map)).length
      = inv.rank := by
    rw [layout_reversed_length, in_extents_full_length]
  have hB : (layout_reversed inv.layout (out_extents_full inv outv map)).length
      = inv.rank := by
    rw [layout_reversed_length, out_extents_full_length]
  have hC : (layout_reversed inv.layout (fft_extents_full inv outv map)).length
      = inv.rank := by
    rw [layout_reversed_length, fft_extents_full_length]
  rw [hA] at hins
  rw [hB] at houts
  rw [hC] at hffts
  subst hins houts hffts
  refine ⟨?_, ?_, ?_, rfl, rfl, rfl⟩
  · rw [List.length_drop, hA]
    omega
  · rw [List.length_drop, hB]
    omega
  · rw [List.length_drop, hC]
    omega

/-- C6 witness: on the concrete call (4,5) → (4,3) with D = 1. -/
theorem c6_trailing_slice_witness :
    ([5] : List Nat).length = 1 ∧ ([3] : List Nat).length = 1
    ∧ ([5] : List Nat).length = 1
    ∧ ([5] : List Nat)
      = (layout_reversed rview45.layout (in_extents_full rview45 [0, 1])).drop
          (rview45.rank - 1)
    ∧ ([3] : List Nat)
      = (layout_reversed rview45.layout (out_extents_full rview45 cview43 [0, 1])).drop
          (rview45.rank - 1)
    ∧ ([5] : List Nat)
      = (layout_reversed rview45.layout (fft_extents_full rview45 cview43 [0, 1])).drop
          (rview45.rank - 1) :=
  c6_trailing_slice rview45 cview43 1 [0, 1] (by decide) [5] [3] [5] 4 rfl

/-- Every per-axis extent of a view whose extents are all ≥ 1 is ≥ 1
(out-of-range queries return the Kokkos default 1). -/
theorem one_le_extent (v : View) (hv : ∀ e ∈ v.extents, 1 ≤ e) (i : Nat) :
    1 ≤ v.extent i := by
  unfold View.extent
  by_cases hi : i < v.extents.length
  · rw [List.getD_eq_getElem _ _ hi]
    exact hv _ (List.getElem_mem hi)
  · rw [List.getD_eq_default _ _ (by omega)]

theorem one_le_mem_in_full (inv : View) (map : List Nat)
    (hv : ∀ e ∈ inv.extents, 1 ≤ e) :
    ∀ a ∈ in_extents_full inv map, 1 ≤ a := by
  intro a ha
  obtain ⟨i, -, rfl⟩ := List.mem_map.mp ha
  exact one_le_extent inv hv _

theorem one_le_mem_out_full (inv outv : View) (map : List Nat)
    (hv : ∀ e ∈ outv.extents, 1 ≤ e) :
    ∀ a ∈ out_extents_full inv outv map, 1 ≤ a := by
  intro a ha
  obtain ⟨i, -, rfl⟩ := List.mem_map.mp ha
  exact one_le_extent outv hv _

theorem one_le_mem_fft_full (inv outv : View) (map : List Nat)
    (hv : ∀ e ∈ inv.extents, 1 ≤ e) :
    ∀ a ∈ fft_extents_full inv outv map, 1 ≤ a := by
  intro a ha
  obtain ⟨i, -, rfl⟩ := List.mem_map.mp ha
  exact le_trans (one_le_extent inv hv _) (le_max_left _ _)

/-- C7: when every input and output extent is at least 1, every returned
extent is at least 1 (hence non-negative), the batch divisor `fft_size`
is positive (so the division is well defined), and the returned batch
count is at least 1. -/
theorem c7_batch_count_positive (inv outv : View) (dim : Nat) (map : List Nat)
    (hin : ∀ e ∈ inv.extents, 1 ≤ e) (hout : ∀ e ∈ outv.extents, 1 ≤ e)
    (ins outs ffts : List Nat) (hm : Nat)
    (h : get_extents inv outv dim map = Except.ok (ins, outs, ffts, hm)) :
    (∀ e ∈ ins, 1 ≤ e) ∧ (∀ e ∈ outs, 1 ≤ e) ∧ (∀ e ∈ ffts, 1 ≤ e)
    ∧ 0 < ffts.foldl (· * ·) 1 ∧ 1 ≤ hm := by
  obtain ⟨hins, houts, hffts, hhm⟩ :=
    get_extents_ok_parts inv outv dim map ins outs ffts hm h
  set C := layout_reversed inv.layout (fft_extents_full inv outv map) with hCdef
  have hCmem : ∀ a ∈ C, 1 ≤ a := by
    intro a ha
    rw [hCdef, mem_layout_reversed] at ha
    exact one_le_mem_fft_full inv outv map hin a ha
  have hFmem : ∀ a ∈ C.drop (C.length - dim), 1 ≤ a := by
    intro a ha
    exact hCmem a (List.drop_subset _ _ ha)
  have hfpos : 0 < (C.drop (C.length - dim)).prod :=
    List.prod_pos (fun a ha => hFmem a ha)
  have hppos : 0 < (C.take (C.length - dim)).prod :=
    List.prod_pos (fun a ha => hCmem a (List.take_subset _ _ ha))
  have hsplit : (C.take (C.length - dim)).prod * (C.drop (C.length - dim)).prod
      = C.prod := List.prod_take_mul_prod_drop _ _
  rw [← List.prod_eq_foldl, ← List.prod_eq_foldl] at hhm
  subst hins houts hffts
  refine ⟨?_, ?_, ?_, ?_, ?_⟩
  · intro e he
    have hmem := List.drop_subset _ _ he
    rw [mem_layout_reversed] at hmem
    exact one_le_mem_in_full inv map hin e hmem
  · intro e he
    have hmem := List.drop_subset _ _ he
    rw [mem_layout_reversed] at hmem
    exact one_le_mem_out_full inv outv map hout e hmem
  · exact hFmem
  · rw [← List.prod_eq_foldl]
    exact hfpos
  · rw [hhm, Nat.one_le_div_iff hfpos, ← hsplit]
    exact Nat.le_mul_of_pos_left _ hppos

/-- C7 witness: on the concrete call (4,5) → (4,3). -/
theorem c7_batch_count_positive_witness :
    (∀ e ∈ ([5] : List Nat), 1 ≤ e) ∧ (∀ e ∈ ([3] : List Nat), 1 ≤ e)
    ∧ (∀ e ∈ ([5] : List Nat), 1 ≤ e)
    ∧ 0 < ([5] : List Nat).foldl (· * ·) 1 ∧ 1 ≤ 4 :=
  c7_batch_count_positive rview45 cview43 1 [0, 1] (by decide) (by decide)
    [5] [3] [5] 4 rfl

/-- Row-major layout leaves a sequence unreversed. -/
theorem layout_reversed_right (l : List Nat) :
    layout_reversed Layout.Right l = l := rfl

/-- A mapped range over a reversed index list is the reverse of the
mapped range over the original list. -/
theorem map_range_comp_reverse (f : Nat → Nat) (map : List Nat) (n : Nat)
    (h : map.length = n) :
    (List.range n).map (fun i => f (map.reverse.getD i 0))
      = ((List.range n).map (fun i => f (map.getD i 0))).reverse := by
  apply List.ext_getElem
  · simp
  · intro i h1 h2
    have hi : i < n := by simpa using h1
    rw [List.getElem_reverse]
    simp only [List.getElem_map, List.getElem_range, List.length_map,
      List.length_range]
    congr 1
    rw [getD_reverse _ _ (by omega), h]

/-- The last entry of a reversed list is the first of the original. -/
theorem getD_rev_last (l : List Nat) (n : Nat) (h : l.length = n) :
    l.reverse.getD (n - 1) 0 = l.getD 0 0 := by
  cases n with
  | zero =>
    have hnil : l = [] := List.length_eq_zero.mp h
    subst hnil
    rfl
  | succ m =>
    rw [getD_reverse _ _ (by omega), h]
    have he : Nat.succ m - 1 - (Nat.succ m - 1) = 0 := by omega
    rw [he]

/-- Switching the view to row-major and reversing the axis map reverses
the full `_in_extents` sequence. -/
theorem in_extents_full_right_reverse (inv : View) (map : List Nat)
    (h : map.length = inv.rank) :
    in_extents_full { inv with layout := Layout.Right } map.reverse
      = (in_extents_full inv map).reverse := by
  unfold in_extents_full
  exact map_range_comp_reverse inv.extent map inv.rank h

/-- Same for the full `_out_extents` sequence. -/
theorem out_extents_full_right_reverse (inv outv : View) (map : List Nat)
    (h : map.length = inv.rank) :
    out_extents_full { inv with layout := Layout.Right } outv map.reverse
      = (out_extents_full inv outv map).reverse := by
  unfold out_extents_full
  exact map_range_comp_reverse outv.extent map inv.rank h

/-- Same for the full `_fft_extents` sequence. -/
theorem fft_extents_full_right_reverse (inv outv : View) (map : List Nat)
    (h : map.length = inv.rank) :
    fft_extents_full { inv with layout := Layout.Right } outv map.reverse
      = (fft_extents_full inv outv map).reverse := by
  unfold fft_extents_full
  exact map_range_comp_reverse
    (fun j => max (inv.extent j) (outv.extent j)) map inv.rank h

/-- The post-validation computation agrees between a column-major call
and the row-major call on the reversed axis map. -/
theorem sliced_left_right (inv outv : View) (dim : Nat) (map : List Nat)
    (hL : inv.layout = Layout.Left) (h : map.length = inv.rank) :
    get_extents_sliced inv outv dim map
      = get_extents_sliced { inv with layout := Layout.Right } outv dim
          map.reverse := by
  simp only [get_extents_sliced]
  rw [in_extents_full_right_reverse inv map h,
      out_extents_full_right_reverse inv outv map h,
      fft_extents_full_right_reverse inv outv map h]
  rw [hL]
  simp [layout_reversed]

/-- C5: a column-major call equals the row-major call on the reversed
axis map (the resolver reverses all three full-length sequences before
slicing), and for row-major inputs no reversal occurs: the returned
sequences are trailing slices of the unreversed full sequences. -/
theorem c5_column_major_reversal (inv outv : View) (dim : Nat) (map : List Nat)
    (hlen : map.length = inv.rank) :
    (inv.layout = Layout.Left →
      get_extents inv outv dim map
        = get_extents { inv with layout := Layout.Right } outv dim map.reverse)
    ∧
    (inv.layout = Layout.Right →
      ∀ ins outs ffts hm,
        get_extents inv outv dim map = Except.ok (ins, outs, ffts, hm) →
        ins = (in_extents_full inv map).drop (inv.rank - dim)
        ∧ outs = (out_extents_full inv outv map).drop (inv.rank - dim)
        ∧ ffts = (fft_extents_full inv outv map).drop (inv.rank - dim)) := by
  constructor
  · intro hL
    have hinner : inner_most_axis inv = 0 := by
      simp [inner_most_axis, hL]
    have hinnerR : inner_most_axis { inv with layout := Layout.Right }
        = inv.rank - 1 := rfl
    have hval : ({ inv with layout := Layout.Right } : View).value_type
        = inv.value_type := rfl
    unfold get_extents get_extents_c2r_block
    rw [in_extents_full_right_reverse inv map hlen,
        out_extents_full_right_reverse inv outv map hlen,
        hval, hinner, hinnerR,
        getD_rev_last (out_extents_full inv outv map) inv.rank
          (out_extents_full_length inv outv map),
        getD_rev_last (in_extents_full inv map) inv.rank
          (in_extents_full_length inv map),
        ← sliced_left_right inv outv dim map hL hlen]
  · intro hR ins outs ffts hm h
    obtain ⟨hins, houts, hffts, -⟩ :=
      get_extents_ok_parts inv outv dim map ins outs ffts hm h
    rw [layout_reversed_length, in_extents_full_length, hR] at hins
    rw [layout_reversed_length, out_extents_full_length, hR] at houts
    rw [layout_reversed_length, fft_extents_full_length, hR] at hffts
    rw [layout_reversed_right] at hins houts hffts
    exact ⟨hins, houts, hffts⟩

/-- C5 witness: a concrete column-major call and a concrete row-major
call with its trailing slices. -/
theorem c5_column_major_reversal_witness :
    get_extents lview46 lview46 1 [0, 1]
      = get_extents { lview46 with layout := Layout.Right } lview46 1
          ([0, 1] : List Nat).reverse
    ∧ (([3, 4] : List Nat)
        = (in_extents_full cview234 [0, 1, 2]).drop (cview234.rank - 2)
      ∧ ([3, 4] : List Nat)
        = (out_extents_full cview234 cview234 [0, 1, 2]).drop (cview234.rank - 2)
      ∧ ([3, 4] : List Nat)
        = (fft_extents_full cview234 cview234 [0, 1, 2]).drop (cview234.rank - 2)) :=
  ⟨(c5_column_major_reversal lview46 lview46 1 [0, 1] rfl).1 rfl,
   (c5_column_major_reversal cview234 cview234 2 [0, 1, 2] rfl).2 rfl
     [3, 4] [3, 4] [3, 4] 2 rfl⟩

end Impl
end KokkosFFT
